import Mathlib

/-!
Shallow embedding of the Pairwise Debiasing unbiased learning-to-rank algorithm
(`learning_algorithm/pairwise_debias.py`, class `PairDebias`): the pairwise loss
assembly over ordered position pairs, the closed-form propensity update of the
two propensity vectors `t_plus`/`t_minus`, global-norm gradient clipping, and
the train/eval step dispatcher.  Real-valued tensors are modelled over `ℝ`,
per-position vectors as functions `Fin n → ℝ`, and batches as lists of batch
elements; `rank_list_size` is written `n + 1` so that the normalization pivot
position `0` always exists.
-/

noncomputable section

namespace PairDebias

/-- Rectified linear unit, `tf.nn.relu`. -/
def relu (x : ℝ) : ℝ := max x 0

/-- Logistic sigmoid, `tf.sigmoid`. -/
def sigmoid (x : ℝ) : ℝ := 1 / (1 + Real.exp (-x))

/-- Modelled from the spec: `pairwise_cross_entropy_loss` is inherited from the
`BasicAlgorithm` base class, whose source is not part of this fragment.  The
spec's literal contract is the numerically stable sigmoid cross entropy of the
logit `a` against the soft target `sigmoid b`:
`max(a,0) - a*sigmoid(b) + log(1+exp(-abs a))`. -/
def pairwise_cross_entropy_loss (a b : ℝ) : ℝ :=
  max a 0 - a * sigmoid b + Real.log (1 + Real.exp (-|a|))

/-- The valid-pair mask of line 118: `tf.nn.relu(labels[i] - labels[j])`,
applied to one batch element's pair of label entries. -/
def valid_pair_mask (yi yj : ℝ) : ℝ := relu (yi - yj)

/-- One batch element: a label and a score (model output) per rank position. -/
structure BatchElem (n : ℕ) where
  label : Fin n → ℝ
  score : Fin n → ℝ

/-- `pair_loss` (lines 119-121): the batch sum of the mask-weighted pairwise
cross entropy between the scores at positions `i` and `j`. -/
def pair_loss {n : ℕ} (batch : List (BatchElem n)) (i j : Fin n) : ℝ :=
  (batch.map (fun e =>
    valid_pair_mask (e.label i) (e.label j)
      * pairwise_cross_entropy_loss (e.score i) (e.score j))).sum

/-- Body of the double loop of lines 114-124 for one ordered pair `p = (i, j)`:
the `i = j` pair is skipped (`continue`); otherwise the pair loss is added into
the `t_plus_loss_list` accumulator at `i` divided by `t_minus[j]`, into the
`t_minus_loss_list` accumulator at `j` divided by `t_plus[i]`, and into the
total loss divided by `t_plus[i]` and then by `t_minus[j]`. -/
def assembly_step {n : ℕ} (batch : List (BatchElem n)) (t_plus t_minus : Fin n → ℝ)
    (acc : (Fin n → ℝ) × (Fin n → ℝ) × ℝ) (p : Fin n × Fin n) :
    (Fin n → ℝ) × (Fin n → ℝ) × ℝ :=
  if p.1 = p.2 then acc
  else
    (Function.update acc.1 p.1 (acc.1 p.1 + pair_loss batch p.1 p.2 / t_minus p.2),
     Function.update acc.2.1 p.2 (acc.2.1 p.2 + pair_loss batch p.1 p.2 / t_plus p.1),
     acc.2.2 + pair_loss batch p.1 p.2 / t_plus p.1 / t_minus p.2)

/-- The loss assembly loop of lines 111-124: both accumulators and the loss
start at `0` each step, and the double loop runs over all ordered pairs
`(i, j)`.  Result: `(t_plus_loss_list, t_minus_loss_list, loss)`. -/
def loss_assembly {n : ℕ} (batch : List (BatchElem n)) (t_plus t_minus : Fin n → ℝ) :
    (Fin n → ℝ) × (Fin n → ℝ) × ℝ :=
  (List.finRange n).foldl
    (fun acc i => (List.finRange n).foldl
      (fun acc2 j => assembly_step batch t_plus t_minus acc2 (i, j)) acc)
    (fun _ => 0, fun _ => 0, 0)

/-- Closed form of the `t_plus_loss_list` accumulator:
`t_plus_loss[i] = Σ_{j ≠ i} pair_loss(i,j) / t_minus[j]`. -/
def t_plus_loss {n : ℕ} (batch : List (BatchElem n)) (t_minus : Fin n → ℝ)
    (i : Fin n) : ℝ :=
  ∑ j, if i = j then 0 else pair_loss batch i j / t_minus j

/-- Closed form of the `t_minus_loss_list` accumulator:
`t_minus_loss[j] = Σ_{i ≠ j} pair_loss(i,j) / t_plus[i]`. -/
def t_minus_loss {n : ℕ} (batch : List (BatchElem n)) (t_plus : Fin n → ℝ)
    (j : Fin n) : ℝ :=
  ∑ i, if i = j then 0 else pair_loss batch i j / t_plus i

/-- Closed form of the total pairwise loss:
`loss = Σ_{i ≠ j} pair_loss(i,j) / (t_plus[i] * t_minus[j])`. -/
def total_pair_loss {n : ℕ} (batch : List (BatchElem n)) (t_plus t_minus : Fin n → ℝ) : ℝ :=
  ∑ i, ∑ j, if i = j then 0 else pair_loss batch i j / (t_plus i * t_minus j)

/-- The list of ordered pairs visited by two nested loops. -/
def pairList {ι κ : Type*} : List ι → List κ → List (ι × κ)
  | [], _ => []
  | i :: is, l2 => (l2.map (fun j => (i, j))) ++ pairList is l2

/-- Contribution of the ordered pair `p` to the `t_plus_loss_list` accumulator. -/
def w_plus {n : ℕ} (batch : List (BatchElem n)) (tm : Fin n → ℝ)
    (p : Fin n × Fin n) : ℝ :=
  if p.1 = p.2 then 0 else pair_loss batch p.1 p.2 / tm p.2

/-- Contribution of the ordered pair `p` to the `t_minus_loss_list` accumulator. -/
def w_minus {n : ℕ} (batch : List (BatchElem n)) (tp : Fin n → ℝ)
    (p : Fin n × Fin n) : ℝ :=
  if p.1 = p.2 then 0 else pair_loss batch p.1 p.2 / tp p.1

/-- Contribution of the ordered pair `p` to the total loss. -/
def w_total {n : ℕ} (batch : List (BatchElem n)) (tp tm : Fin n → ℝ)
    (p : Fin n × Fin n) : ℝ :=
  if p.1 = p.2 then 0 else pair_loss batch p.1 p.2 / tp p.1 / tm p.2

/-- The value assigned to `t_plus` by `update_propensity_op` (lines 129-131):
the elementwise power `(t_minus_loss[k] / t_minus_loss[0]) ^ (1/(p+1))`. -/
def new_t_plus {n : ℕ} (t_minus_loss_vec : Fin (n + 1) → ℝ) (p : ℕ)
    (k : Fin (n + 1)) : ℝ :=
  (t_minus_loss_vec k / t_minus_loss_vec 0) ^ ((1 : ℝ) / ((p : ℝ) + 1))

/-- The value assigned to `t_minus` by `update_propensity_op` (lines 132-134):
the elementwise power `(t_plus_loss[k] / t_plus_loss[0]) ^ (1/(p+1))`. -/
def new_t_minus {n : ℕ} (t_plus_loss_vec : Fin (n + 1) → ℝ) (p : ℕ)
    (k : Fin (n + 1)) : ℝ :=
  (t_plus_loss_vec k / t_plus_loss_vec 0) ^ ((1 : ℝ) / ((p : ℝ) + 1))

/-- The recognized hyperparameters (lines 65-71). -/
structure HParams where
  learning_rate : ℝ
  max_gradient_norm : ℝ
  regulation_p : ℕ
  l2_loss : ℝ

/-- The mutable state touched by a training step: the two propensity vectors,
the global step counter, and the scorer's trainable parameters together with
their Adagrad accumulators (flattened into lists of scalars). -/
structure ModelState (n : ℕ) where
  t_plus : Fin n → ℝ
  t_minus : Fin n → ℝ
  global_step : ℕ
  params : List ℝ
  accum : List ℝ

/-- Which merged summary record a step returns (`train_summary` or
`eval_summary`). -/
inductive SummaryKind where
  | train
  | eval

/-- The triple returned by `PairDebias.step` (lines 213-217). -/
structure StepResult (n : ℕ) where
  state : ModelState n
  loss : Option ℝ
  scores : Option (List (Fin n → ℝ))
  summary : SummaryKind

/-- Global L2 norm of a flattened gradient list, as used by
`tf.clip_by_global_norm`. -/
def global_norm (gs : List ℝ) : ℝ := Real.sqrt ((gs.map (fun g => g ^ 2)).sum)

/-- `tf.clip_by_global_norm`: every entry is scaled by
`clip / max (global_norm gs) clip`. -/
def clip_by_global_norm (clip : ℝ) (gs : List ℝ) : List ℝ :=
  gs.map (fun g => g * (clip / max (global_norm gs) clip))

/-- Lines 146-155: clip when `max_gradient_norm > 0`, otherwise apply the raw
gradients. -/
def applied_gradients (b : ℝ) (gs : List ℝ) : List ℝ :=
  if 0 < b then clip_by_global_norm b gs else gs

/-- `tf.nn.l2_loss` summed over all parameters: `Σ p^2 / 2`. -/
def l2_penalty (params : List ℝ) : ℝ := (params.map (fun p => p ^ 2 / 2)).sum

/-- Adagrad accumulator update: `accum + g^2`, elementwise. -/
def adagrad_accum (accum grads : List ℝ) : List ℝ :=
  List.zipWith (fun a g => a + g ^ 2) accum grads

/-- Adagrad parameter update: `p - lr * g / sqrt (accum + g^2)`, elementwise. -/
def adagrad_apply (lr : ℝ) (params accum grads : List ℝ) : List ℝ :=
  List.zipWith (fun p ag => p - lr * ag.2 / Real.sqrt ag.1)
    params ((adagrad_accum accum grads).zip grads)

/-- One training step (`forward_only = False`): the loss assembly is computed
from the pre-step propensities, the L2 penalty is added when `l2_loss > 0`,
gradients are clipped and applied with the global step incremented, and
`update_propensity_op` replaces both propensity vectors together, computed from
this step's accumulators. -/
def train_step {n : ℕ} (hp : HParams) (s : ModelState (n + 1))
    (batch : List (BatchElem (n + 1))) (grads : List ℝ) : StepResult (n + 1) :=
  let assembled := loss_assembly batch s.t_plus s.t_minus
  let loss := if 0 < hp.l2_loss then assembled.2.2 + hp.l2_loss * l2_penalty s.params
    else assembled.2.2
  let ag := applied_gradients hp.max_gradient_norm grads
  ⟨⟨new_t_plus assembled.2.1 hp.regulation_p,
    new_t_minus assembled.1 hp.regulation_p,
    s.global_step + 1,
    adagrad_apply hp.learning_rate s.params s.accum ag,
    adagrad_accum s.accum ag⟩,
   some loss, none, SummaryKind.train⟩

/-- The step dispatcher (lines 198-217): in forward-only mode nothing is
mutated and the scorer's outputs are returned with the eval summary; otherwise
a full training step runs and only the loss is returned. -/
def step {n : ℕ} (hp : HParams) (s : ModelState (n + 1))
    (batch : List (BatchElem (n + 1))) (grads : List ℝ) (forward_only : Bool) :
    StepResult (n + 1) :=
  if forward_only then ⟨s, none, some (batch.map BatchElem.score), SummaryKind.eval⟩
  else train_step hp s batch grads

/-- Concrete hyperparameters with the default positive clipping bound. -/
def hpA : HParams := ⟨0.05, 5, 2, 0⟩

/-- Concrete hyperparameters with clipping disabled (bound 0). -/
def hpB : HParams := ⟨0.05, 0, 2, 0⟩

/-- A minimal concrete model state on one rank position. -/
def state1 : ModelState 1 := ⟨fun _ => 1, fun _ => 1, 0, [], []⟩

/-- The end-to-end scenario batch of the spec: one batch element,
`rank_list_size = 2`, labels `[1, 0]`, scores `[0, 0]`. -/
def batch06 : List (BatchElem 2) := [⟨![1, 0], ![0, 0]⟩]

/-- The scenario's pre-step state: both propensity vectors at their initial
value `tf.ones`, no trainable parameters. -/
def state06 : ModelState 2 := ⟨fun _ => 1, fun _ => 1, 0, [], []⟩

/-- The scenario's hyperparameters: the defaults of lines 65-71
(`regulation_p = 2`). -/
def hp06 : HParams := ⟨0.05, 5.0, 2, 0.0⟩

/-! ## Helper lemmas about the sigmoid and the pairwise cross entropy -/

lemma one_add_exp_pos (x : ℝ) : 0 < 1 + Real.exp x := by positivity

lemma sigmoid_pos (x : ℝ) : 0 < sigmoid x := by
  unfold sigmoid
  positivity

lemma sigmoid_lt_one (x : ℝ) : sigmoid x < 1 := by
  unfold sigmoid
  rw [div_lt_one (one_add_exp_pos (-x))]
  nlinarith [Real.exp_pos (-x)]

lemma one_sub_sigmoid (x : ℝ) :
    1 - sigmoid x = Real.exp (-x) / (1 + Real.exp (-x)) := by
  have h := (one_add_exp_pos (-x)).ne'
  unfold sigmoid
  field_simp

lemma log_sigmoid (x : ℝ) :
    Real.log (sigmoid x) = -Real.log (1 + Real.exp (-x)) := by
  unfold sigmoid
  rw [one_div, Real.log_inv]

lemma log_one_sub_sigmoid (x : ℝ) :
    Real.log (1 - sigmoid x) = -x - Real.log (1 + Real.exp (-x)) := by
  rw [one_sub_sigmoid, Real.log_div (Real.exp_ne_zero _) (one_add_exp_pos (-x)).ne',
    Real.log_exp]

lemma max_add_log_term (a : ℝ) :
    max a 0 + Real.log (1 + Real.exp (-|a|)) = a + Real.log (1 + Real.exp (-a)) := by
  rcases le_or_lt 0 a with h | h
  · rw [abs_of_nonneg h, max_eq_left h]
  · rw [abs_of_neg h, max_eq_right h.le, neg_neg, zero_add]
    have h1 : Real.exp a * (1 + Real.exp (-a)) = 1 + Real.exp a := by
      rw [mul_add, mul_one, ← Real.exp_add]
      simp [add_comm]
    have h2 : Real.log (Real.exp a * (1 + Real.exp (-a)))
        = a + Real.log (1 + Real.exp (-a)) := by
      rw [Real.log_mul (Real.exp_ne_zero a) (one_add_exp_pos (-a)).ne', Real.log_exp]
    rw [← h2, h1]

lemma ce_zero_zero : pairwise_cross_entropy_loss 0 0 = Real.log 2 := by
  unfold pairwise_cross_entropy_loss
  norm_num [Real.exp_zero]

/-! ## Claims C3, C4, C5, C9, C10 -/

/-- C3: the valid-pair mask equals `max 0 (label_i - label_j)` elementwise: it
is zero whenever `label_i ≤ label_j`, equals `label_i - label_j` when
`label_i > label_j`, and is always nonnegative. -/
theorem C3_valid_pair_mask_spec (yi yj : ℝ) :
    (yi ≤ yj → valid_pair_mask yi yj = 0)
    ∧ (yj < yi → valid_pair_mask yi yj = yi - yj)
    ∧ 0 ≤ valid_pair_mask yi yj
    ∧ valid_pair_mask yi yj = max 0 (yi - yj) := by
  refine ⟨fun h => max_eq_right (by linarith), fun h => max_eq_left (by linarith),
    le_max_right _ _, max_comm _ _⟩

/-- Witness for C3 at the concrete labels 0, 1. -/
theorem C3_valid_pair_mask_spec_witness :
    valid_pair_mask (0 : ℝ) 1 = 0 ∧ valid_pair_mask (1 : ℝ) 0 = 1 - 0
    ∧ 0 ≤ valid_pair_mask (1 : ℝ) 0 :=
  ⟨(C3_valid_pair_mask_spec 0 1).1 (by norm_num),
   (C3_valid_pair_mask_spec 1 0).2.1 (by norm_num),
   (C3_valid_pair_mask_spec 1 0).2.2.1⟩

/-- C4: the pairwise cross entropy computes exactly the numerically stable
sigmoid cross entropy with `sigmoid b` as soft target: it equals the stable
closed form, it equals the semantic cross entropy
`-(t * log (sigmoid a) + (1 - t) * log (1 - sigmoid a))` with `t = sigmoid b`,
it is `log 2` at `(0, 0)`, and (the real-valued rendering of "no overflow for
large |a|") it is nonnegative and grows at most linearly, bounded by
`|a| + log 2`. -/
theorem C4_pairwise_cross_entropy_spec (a b : ℝ) :
    pairwise_cross_entropy_loss a b
        = max a 0 - a * sigmoid b + Real.log (1 + Real.exp (-|a|))
    ∧ pairwise_cross_entropy_loss a b
        = -(sigmoid b * Real.log (sigmoid a)
            + (1 - sigmoid b) * Real.log (1 - sigmoid a))
    ∧ pairwise_cross_entropy_loss 0 0 = Real.log 2
    ∧ 0 ≤ pairwise_cross_entropy_loss a b
    ∧ pairwise_cross_entropy_loss a b ≤ |a| + Real.log 2 := by
  have hσ0 : 0 < sigmoid b := sigmoid_pos b
  have hσ1 : sigmoid b < 1 := sigmoid_lt_one b
  have hlogpos : 0 < Real.log (1 + Real.exp (-|a|)) :=
    Real.log_pos (by nlinarith [Real.exp_pos (-|a|)])
  have hlog2 : Real.log (1 + Real.exp (-|a|)) ≤ Real.log 2 := by
    have hle : Real.exp (-|a|) ≤ 1 := Real.exp_le_one_iff.mpr (neg_nonpos.mpr (abs_nonneg a))
    have := Real.log_le_log (by positivity) (by linarith : 1 + Real.exp (-|a|) ≤ 2)
    exact this
  refine ⟨rfl, ?_, ce_zero_zero, ?_, ?_⟩
  · unfold pairwise_cross_entropy_loss
    rw [log_sigmoid, log_one_sub_sigmoid]
    linear_combination max_add_log_term a
  · unfold pairwise_cross_entropy_loss
    rcases le_or_lt 0 a with h | h
    · rw [max_eq_left h]
      nlinarith [mul_nonneg h (le_of_lt (sub_pos.mpr hσ1))]
    · rw [max_eq_right h.le]
      nlinarith [mul_pos (neg_pos.mpr h) hσ0]
  · unfold pairwise_cross_entropy_loss
    rcases le_or_lt 0 a with h | h
    · rw [abs_of_nonneg h] at hlog2 ⊢
      rw [max_eq_left h]
      nlinarith [mul_nonneg h hσ0.le]
    · rw [abs_of_neg h] at hlog2 ⊢
      rw [max_eq_right h.le]
      nlinarith [mul_le_mul_of_nonneg_left hσ1.le (neg_pos.mpr h).le]

/-- C5: when the pivot accumulators are nonzero, the propensity update maps
position 0 of both vectors to exactly 1. -/
theorem C5_propensity_pivot_one {n : ℕ}
    (t_minus_loss_vec t_plus_loss_vec : Fin (n + 1) → ℝ) (p : ℕ)
    (h1 : t_minus_loss_vec 0 ≠ 0) (h2 : t_plus_loss_vec 0 ≠ 0) :
    new_t_plus t_minus_loss_vec p 0 = 1 ∧ new_t_minus t_plus_loss_vec p 0 = 1 := by
  constructor
  · unfold new_t_plus
    rw [div_self h1, Real.one_rpow]
  · unfold new_t_minus
    rw [div_self h2, Real.one_rpow]

/-- Witness for C5 at concrete nonzero pivot accumulators. -/
theorem C5_propensity_pivot_one_witness :
    ((fun _ : Fin 1 => (2 : ℝ)) 0 ≠ 0) ∧ ((fun _ : Fin 1 => (3 : ℝ)) 0 ≠ 0)
    ∧ new_t_plus (fun _ : Fin 1 => (2 : ℝ)) 2 0 = 1
    ∧ new_t_minus (fun _ : Fin 1 => (3 : ℝ)) 2 0 = 1 := by
  have h := @C5_propensity_pivot_one 0 (fun _ => (2 : ℝ)) (fun _ => (3 : ℝ)) 2
    (by norm_num) (by norm_num)
  exact ⟨by norm_num, by norm_num, h.1, h.2⟩

/-- C9: scaling every accumulator entry by a positive constant leaves the
updated propensity vectors unchanged (scale invariance of the ratio). -/
theorem C9_propensity_scale_invariance {n : ℕ}
    (t_minus_loss_vec t_plus_loss_vec : Fin (n + 1) → ℝ) (p : ℕ) (c : ℝ)
    (hc : 0 < c) :
    (∀ k, new_t_plus (fun j => c * t_minus_loss_vec j) p k
        = new_t_plus t_minus_loss_vec p k)
    ∧ (∀ k, new_t_minus (fun j => c * t_plus_loss_vec j) p k
        = new_t_minus t_plus_loss_vec p k) := by
  constructor
  · intro k
    unfold new_t_plus
    rw [mul_div_mul_left _ _ hc.ne']
  · intro k
    unfold new_t_minus
    rw [mul_div_mul_left _ _ hc.ne']

/-- Witness for C9 at concrete accumulators and the scale factor 2. -/
theorem C9_propensity_scale_invariance_witness :
    (0 : ℝ) < 2
    ∧ new_t_plus (fun j => 2 * (![3, 5] : Fin 2 → ℝ) j) 2 1 = new_t_plus ![3, 5] 2 1
    ∧ new_t_minus (fun j => 2 * (![4, 7] : Fin 2 → ℝ) j) 2 1
        = new_t_minus ![4, 7] 2 1 := by
  have h := @C9_propensity_scale_invariance 1 ![3, 5] ![4, 7] 2 2 (by norm_num)
  exact ⟨by norm_num, h.1 1, h.2 1⟩

/-- C10: for any batch element, at most one of the two directed masks of an
unordered pair of positions is nonzero: their product is always 0. -/
theorem C10_mask_one_direction {n : ℕ} (e : BatchElem n) (i j : Fin n) :
    valid_pair_mask (e.label i) (e.label j)
      * valid_pair_mask (e.label j) (e.label i) = 0 := by
  rcases le_total (e.label i) (e.label j) with h | h
  · rw [show valid_pair_mask (e.label i) (e.label j) = 0 from
      max_eq_right (by linarith), zero_mul]
  · rw [show valid_pair_mask (e.label j) (e.label i) = 0 from
      max_eq_right (by linarith), mul_zero]

/-! ## Fold lemmas: the nested accumulation loop equals closed-form sums -/

lemma foldl_pairList {ι κ σ : Type*} (g : σ → ι × κ → σ) (l2 : List κ) :
    ∀ (l1 : List ι) (init : σ),
      l1.foldl (fun acc i => l2.foldl (fun a j => g a (i, j)) acc) init
        = (pairList l1 l2).foldl g init := by
  intro l1
  induction l1 with
  | nil => intro init; rfl
  | cons x xs ih =>
      intro init
      simp only [List.foldl_cons, pairList, List.foldl_append, List.foldl_map]
      exact ih _

lemma map_sum_pairList {ι κ : Type*} (h : ι × κ → ℝ) (l2 : List κ) :
    ∀ l1 : List ι,
      ((pairList l1 l2).map h).sum
        = (l1.map (fun i => ((l2.map (fun j => h (i, j))).sum))).sum := by
  intro l1
  induction l1 with
  | nil => rfl
  | cons x xs ih =>
      simp only [pairList, List.map_append, List.sum_append, List.map_cons,
        List.sum_cons, List.map_map, ih]
      rfl

lemma foldl_prod3 {ι α β γ : Type*} (f1 : α → ι → α) (f2 : β → ι → β) (f3 : γ → ι → γ) :
    ∀ (l : List ι) (a : α) (b : β) (c : γ),
      l.foldl (fun acc x => (f1 acc.1 x, f2 acc.2.1 x, f3 acc.2.2 x)) (a, b, c)
        = (l.foldl f1 a, l.foldl f2 b, l.foldl f3 c) := by
  intro l
  induction l with
  | nil => intro a b c; rfl
  | cons x xs ih => intro a b c; exact ih _ _ _

lemma foldl_scatter {ι : Type*} {n : ℕ} (idx : ι → Fin n) (w : ι → ℝ) :
    ∀ (l : List ι) (g : Fin n → ℝ) (k : Fin n),
      l.foldl (fun h x => Function.update h (idx x) (h (idx x) + w x)) g k
        = g k + (l.map (fun x => if idx x = k then w x else 0)).sum := by
  intro l
  induction l with
  | nil => intro g k; simp
  | cons x xs ih =>
      intro g k
      rw [List.foldl_cons, ih, List.map_cons, List.sum_cons]
      by_cases hx : idx x = k
      · subst hx
        rw [Function.update_same, if_pos rfl]
        ring
      · rw [Function.update_noteq (Ne.symm hx), if_neg hx]
        ring

lemma foldl_add_const {ι : Type*} (w : ι → ℝ) :
    ∀ (l : List ι) (a : ℝ),
      l.foldl (fun b x => b + w x) a = a + (l.map w).sum := by
  intro l
  induction l with
  | nil => intro a; simp
  | cons x xs ih =>
      intro a
      rw [List.foldl_cons, ih, List.map_cons, List.sum_cons]
      ring

lemma assembly_step_split {n : ℕ} (batch : List (BatchElem n)) (tp tm : Fin n → ℝ) :
    assembly_step batch tp tm = fun acc p =>
      (Function.update acc.1 p.1 (acc.1 p.1 + w_plus batch tm p),
       Function.update acc.2.1 p.2 (acc.2.1 p.2 + w_minus batch tp p),
       acc.2.2 + w_total batch tp tm p) := by
  funext acc p
  unfold assembly_step w_plus w_minus w_total
  by_cases h : p.1 = p.2
  · simp [h, Function.update_eq_self]
  · simp [h]

lemma loss_assembly_pairfold {n : ℕ} (batch : List (BatchElem n)) (tp tm : Fin n → ℝ) :
    loss_assembly batch tp tm
      = ((pairList (List.finRange n) (List.finRange n)).foldl
          (fun g p => Function.update g p.1 (g p.1 + w_plus batch tm p)) (fun _ => 0),
         (pairList (List.finRange n) (List.finRange n)).foldl
          (fun g p => Function.update g p.2 (g p.2 + w_minus batch tp p)) (fun _ => 0),
         (pairList (List.finRange n) (List.finRange n)).foldl
          (fun c p => c + w_total batch tp tm p) 0) := by
  have h1 : loss_assembly batch tp tm
      = (pairList (List.finRange n) (List.finRange n)).foldl
          (assembly_step batch tp tm) (fun _ => 0, fun _ => 0, 0) :=
    foldl_pairList (assembly_step batch tp tm) (List.finRange n) (List.finRange n) _
  rw [h1, assembly_step_split batch tp tm]
  exact foldl_prod3
    (fun (g : Fin n → ℝ) (p : Fin n × Fin n) =>
      Function.update g p.1 (g p.1 + w_plus batch tm p))
    (fun (g : Fin n → ℝ) (p : Fin n × Fin n) =>
      Function.update g p.2 (g p.2 + w_minus batch tp p))
    (fun (c : ℝ) (p : Fin n × Fin n) => c + w_total batch tp tm p)
    (pairList (List.finRange n) (List.finRange n)) (fun _ => 0) (fun _ => 0) 0

lemma loss_assembly_fst {n : ℕ} (batch : List (BatchElem n)) (tp tm : Fin n → ℝ)
    (k : Fin n) :
    (loss_assembly batch tp tm).1 k = t_plus_loss batch tm k := by
  have h2 : (loss_assembly batch tp tm).1
      = (pairList (List.finRange n) (List.finRange n)).foldl
          (fun g p => Function.update g p.1 (g p.1 + w_plus batch tm p)) (fun _ => 0) :=
    congrArg Prod.fst (loss_assembly_pairfold batch tp tm)
  rw [h2]
  have h3 := foldl_scatter (fun p : Fin n × Fin n => p.1) (w_plus batch tm)
      (pairList (List.finRange n) (List.finRange n)) (fun _ => 0) k
  refine h3.trans ?_
  simp only [zero_add]
  have h4 := map_sum_pairList
      (fun x : Fin n × Fin n => if x.1 = k then w_plus batch tm x else 0)
      (List.finRange n) (List.finRange n)
  refine h4.trans ?_
  have h5 : ((List.finRange n).map (fun i =>
      ((List.finRange n).map (fun j =>
        if (i, j).1 = k then w_plus batch tm (i, j) else 0)).sum)).sum
      = t_plus_loss batch tm k := by
    simp only [← Fin.sum_univ_def]
    rw [Finset.sum_eq_single k]
    · unfold t_plus_loss w_plus
      simp
    · intro b _ hb
      simp [hb]
    · intro hk
      exact absurd (Finset.mem_univ k) hk
  exact h5

lemma loss_assembly_snd_fst {n : ℕ} (batch : List (BatchElem n)) (tp tm : Fin n → ℝ)
    (k : Fin n) :
    (loss_assembly batch tp tm).2.1 k = t_minus_loss batch tp k := by
  have h2 : (loss_assembly batch tp tm).2.1
      = (pairList (List.finRange n) (List.finRange n)).foldl
          (fun g p => Function.update g p.2 (g p.2 + w_minus batch tp p)) (fun _ => 0) :=
    congrArg (fun t => t.2.1) (loss_assembly_pairfold batch tp tm)
  rw [h2]
  have h3 := foldl_scatter (fun p : Fin n × Fin n => p.2) (w_minus batch tp)
      (pairList (List.finRange n) (List.finRange n)) (fun _ => 0) k
  refine h3.trans ?_
  simp only [zero_add]
  have h4 := map_sum_pairList
      (fun x : Fin n × Fin n => if x.2 = k then w_minus batch tp x else 0)
      (List.finRange n) (List.finRange n)
  refine h4.trans ?_
  have hinner : ∀ i : Fin n,
      (∑ j : Fin n, if (i, j).2 = k then w_minus batch tp (i, j) else 0)
        = if i = k then 0 else pair_loss batch i k / tp i := by
    intro i
    rw [Finset.sum_eq_single k]
    · simp [w_minus]
    · intro b _ hb
      simp [hb]
    · intro hk
      exact absurd (Finset.mem_univ k) hk
  have h5 : ((List.finRange n).map (fun i =>
      ((List.finRange n).map (fun j =>
        if (i, j).2 = k then w_minus batch tp (i, j) else 0)).sum)).sum
      = t_minus_loss batch tp k := by
    simp only [← Fin.sum_univ_def]
    calc (∑ i : Fin n, ∑ j : Fin n, if (i, j).2 = k then w_minus batch tp (i, j) else 0)
        = ∑ i : Fin n, (if i = k then 0 else pair_loss batch i k / tp i) :=
          Finset.sum_congr rfl (fun i _ => hinner i)
      _ = t_minus_loss batch tp k := rfl
  exact h5

lemma loss_assembly_snd_snd {n : ℕ} (batch : List (BatchElem n)) (tp tm : Fin n → ℝ) :
    (loss_assembly batch tp tm).2.2 = total_pair_loss batch tp tm := by
  have h2 : (loss_assembly batch tp tm).2.2
      = (pairList (List.finRange n) (List.finRange n)).foldl
          (fun c p => c + w_total batch tp tm p) 0 :=
    congrArg (fun t => t.2.2) (loss_assembly_pairfold batch tp tm)
  rw [h2]
  have h3 := foldl_add_const (w_total batch tp tm)
      (pairList (List.finRange n) (List.finRange n)) 0
  refine h3.trans ?_
  simp only [zero_add]
  have h4 := map_sum_pairList (w_total batch tp tm) (List.finRange n) (List.finRange n)
  refine h4.trans ?_
  have h5 : ((List.finRange n).map (fun i =>
      ((List.finRange n).map (fun j => w_total batch tp tm (i, j))).sum)).sum
      = total_pair_loss batch tp tm := by
    simp only [← Fin.sum_univ_def]
    unfold total_pair_loss w_total
    simp only [div_div]
  exact h5

/-! ## Gradient clipping helpers -/

lemma sum_sq_scale (c : ℝ) :
    ∀ gs : List ℝ,
      ((gs.map (fun g => g * c)).map (fun g => g ^ 2)).sum
        = c ^ 2 * ((gs.map (fun g => g ^ 2)).sum)
  | [] => by simp
  | g :: t => by
      simp only [List.map_cons, List.sum_cons, sum_sq_scale c t]
      ring

lemma global_norm_clip (b : ℝ) (hb : 0 < b) (gs : List ℝ) :
    global_norm (clip_by_global_norm b gs) ≤ b := by
  have hM : 0 < max (global_norm gs) b := lt_max_of_lt_right hb
  have hc0 : 0 ≤ b / max (global_norm gs) b := (div_pos hb hM).le
  have h1 : global_norm (clip_by_global_norm b gs)
      = (b / max (global_norm gs) b) * global_norm gs := by
    show Real.sqrt (((gs.map (fun g => g * (b / max (global_norm gs) b))).map
        (fun g => g ^ 2)).sum) = _
    rw [sum_sq_scale, Real.sqrt_mul (sq_nonneg _), Real.sqrt_sq_eq_abs,
      abs_of_nonneg hc0]
    rfl
  rw [h1, div_mul_eq_mul_div, div_le_iff₀ hM]
  exact mul_le_mul_of_nonneg_left (le_max_left _ _) hb.le

/-! ## Claims C1, C2, C7, C8 -/

/-- C1: after every train-mode step the stored propensity vectors equal the
closed-form power-law update of the accumulators of that step's loss assembly,
computed from the pre-step (old) propensities:
`new_t_plus[k] = (t_minus_loss[k]/t_minus_loss[0])^(1/(regulation_p+1))` and
`new_t_minus[k] = (t_plus_loss[k]/t_plus_loss[0])^(1/(regulation_p+1))` for
every position `k`; both vectors come from the one combined update, so both
are functions of the pre-step state only. -/
theorem C1_train_step_propensity_closed_form {n : ℕ} (hp : HParams)
    (s : ModelState (n + 1)) (batch : List (BatchElem (n + 1))) (grads : List ℝ) :
    (∀ k, (step hp s batch grads false).state.t_plus k
        = (t_minus_loss batch s.t_plus k / t_minus_loss batch s.t_plus 0)
            ^ ((1 : ℝ) / ((hp.regulation_p : ℝ) + 1)))
    ∧ (∀ k, (step hp s batch grads false).state.t_minus k
        = (t_plus_loss batch s.t_minus k / t_plus_loss batch s.t_minus 0)
            ^ ((1 : ℝ) / ((hp.regulation_p : ℝ) + 1))) := by
  constructor
  · intro k
    show new_t_plus (loss_assembly batch s.t_plus s.t_minus).2.1 hp.regulation_p k = _
    unfold new_t_plus
    rw [loss_assembly_snd_fst batch s.t_plus s.t_minus k,
      loss_assembly_snd_fst batch s.t_plus s.t_minus 0]
  · intro k
    show new_t_minus (loss_assembly batch s.t_plus s.t_minus).1 hp.regulation_p k = _
    unfold new_t_minus
    rw [loss_assembly_fst batch s.t_plus s.t_minus k,
      loss_assembly_fst batch s.t_plus s.t_minus 0]

/-- C2: the per-step accumulators and total loss are assembled exactly as
`t_plus_loss[i] = Σ_{j≠i} pair_loss(i,j)/t_minus[j]`,
`t_minus_loss[j] = Σ_{i≠j} pair_loss(i,j)/t_plus[i]`,
`total_loss = Σ_{i≠j} pair_loss(i,j)/(t_plus[i]*t_minus[j])`, where both
accumulators start at 0 each step, pairs with `i = j` contribute nothing, and
`pair_loss` is the batch sum of the mask-weighted cross entropy. -/
theorem C2_loss_assembly_accumulators {n : ℕ} (batch : List (BatchElem n))
    (tp tm : Fin n → ℝ) :
    (∀ i, (loss_assembly batch tp tm).1 i
        = ∑ j, if i = j then 0 else pair_loss batch i j / tm j)
    ∧ (∀ j, (loss_assembly batch tp tm).2.1 j
        = ∑ i, if i = j then 0 else pair_loss batch i j / tp i)
    ∧ ((loss_assembly batch tp tm).2.2
        = ∑ i, ∑ j, if i = j then 0 else pair_loss batch i j / (tp i * tm j))
    ∧ ∀ i j, pair_loss batch i j
        = (batch.map (fun e => valid_pair_mask (e.label i) (e.label j)
            * pairwise_cross_entropy_loss (e.score i) (e.score j))).sum :=
  ⟨fun i => loss_assembly_fst batch tp tm i,
   fun j => loss_assembly_snd_fst batch tp tm j,
   loss_assembly_snd_snd batch tp tm,
   fun _ _ => rfl⟩

/-- C7: a forward-only (eval) step mutates nothing — the propensity vectors,
the global step and the trainable parameters are all unchanged — and returns
no loss, the per-position scores (one length-`rank_list_size` vector per batch
element), and the eval summary record. -/
theorem C7_eval_step_frame {n : ℕ} (hp : HParams) (s : ModelState (n + 1))
    (batch : List (BatchElem (n + 1))) (grads : List ℝ) :
    (step hp s batch grads true).state = s
    ∧ (step hp s batch grads true).state.t_plus = s.t_plus
    ∧ (step hp s batch grads true).state.t_minus = s.t_minus
    ∧ (step hp s batch grads true).state.global_step = s.global_step
    ∧ (step hp s batch grads true).state.params = s.params
    ∧ (step hp s batch grads true).loss = none
    ∧ (step hp s batch grads true).scores = some (batch.map BatchElem.score)
    ∧ (batch.map BatchElem.score).length = batch.length
    ∧ (step hp s batch grads true).summary = SummaryKind.eval :=
  ⟨rfl, rfl, rfl, rfl, rfl, rfl, rfl, by simp, rfl⟩

/-- C8: when the configured bound is positive, the global L2 norm of the
gradient vector actually applied is at most that bound; when the bound is
nonpositive, the raw gradients are applied unchanged; and a train step applies
exactly these (possibly clipped) gradients to the parameters. -/
theorem C8_gradient_clipping {n : ℕ} (hp : HParams) (s : ModelState (n + 1))
    (batch : List (BatchElem (n + 1))) (gs : List ℝ) :
    (0 < hp.max_gradient_norm →
      global_norm (applied_gradients hp.max_gradient_norm gs)
        ≤ hp.max_gradient_norm)
    ∧ (hp.max_gradient_norm ≤ 0 → applied_gradients hp.max_gradient_norm gs = gs)
    ∧ (step hp s batch gs false).state.params
        = adagrad_apply hp.learning_rate s.params s.accum
            (applied_gradients hp.max_gradient_norm gs) := by
  refine ⟨?_, ?_, rfl⟩
  · intro hb
    unfold applied_gradients
    rw [if_pos hb]
    exact global_norm_clip hp.max_gradient_norm hb gs
  · intro hb
    unfold applied_gradients
    rw [if_neg (not_lt.mpr hb)]

/-- Witness for C8: concrete gradients `[3, 4]` with the default bound 5
(clipping active) and with bound 0 (clipping disabled). -/
theorem C8_gradient_clipping_witness :
    (0 : ℝ) < hpA.max_gradient_norm
    ∧ global_norm (applied_gradients hpA.max_gradient_norm [3, 4])
        ≤ hpA.max_gradient_norm
    ∧ hpB.max_gradient_norm ≤ 0
    ∧ applied_gradients hpB.max_gradient_norm [3, 4] = [3, 4] := by
  have h1 : (0 : ℝ) < hpA.max_gradient_norm := by norm_num [hpA]
  have h2 : hpB.max_gradient_norm ≤ 0 := by norm_num [hpB]
  exact ⟨h1, (@C8_gradient_clipping 0 hpA state1 [] [3, 4]).1 h1, h2,
    (@C8_gradient_clipping 0 hpB state1 [] [3, 4]).2.1 h2⟩

/-! ## The end-to-end scenario (C6) -/

lemma relu_of_nonneg {x : ℝ} (h : 0 ≤ x) : relu x = x := max_eq_left h

lemma relu_of_nonpos {x : ℝ} (h : x ≤ 0) : relu x = 0 := max_eq_right h

lemma mask_10 : valid_pair_mask (1 : ℝ) 0 = 1 := by
  unfold valid_pair_mask
  rw [show (1 : ℝ) - 0 = 1 by norm_num]
  exact relu_of_nonneg (by norm_num)

lemma mask_01 : valid_pair_mask (0 : ℝ) 1 = 0 := by
  unfold valid_pair_mask
  exact relu_of_nonpos (by norm_num)

lemma pair_loss06_01 : pair_loss batch06 0 1 = Real.log 2 := by
  unfold pair_loss batch06
  simp only [List.map_cons, List.map_nil, List.sum_cons, List.sum_nil, add_zero,
    Matrix.cons_val_zero, Matrix.cons_val_one, Matrix.head_cons]
  rw [mask_10, ce_zero_zero, one_mul]

lemma pair_loss06_10 : pair_loss batch06 1 0 = 0 := by
  unfold pair_loss batch06
  simp only [List.map_cons, List.map_nil, List.sum_cons, List.sum_nil, add_zero,
    Matrix.cons_val_zero, Matrix.cons_val_one, Matrix.head_cons]
  rw [mask_01, zero_mul]

lemma assembly06_fst_0 :
    (loss_assembly batch06 state06.t_plus state06.t_minus).1 0 = Real.log 2 := by
  rw [loss_assembly_fst]
  show (∑ j : Fin 2, if (0 : Fin 2) = j then 0
      else pair_loss batch06 0 j / state06.t_minus j) = Real.log 2
  rw [Fin.sum_univ_two, if_pos rfl, if_neg (by decide), pair_loss06_01]
  show 0 + Real.log 2 / (1 : ℝ) = Real.log 2
  rw [div_one, zero_add]

lemma assembly06_fst_1 :
    (loss_assembly batch06 state06.t_plus state06.t_minus).1 1 = 0 := by
  rw [loss_assembly_fst]
  show (∑ j : Fin 2, if (1 : Fin 2) = j then 0
      else pair_loss batch06 1 j / state06.t_minus j) = 0
  rw [Fin.sum_univ_two, if_neg (by decide), if_pos rfl, pair_loss06_10]
  show (0 : ℝ) / (1 : ℝ) + 0 = 0
  norm_num

lemma assembly06_snd_0 :
    (loss_assembly batch06 state06.t_plus state06.t_minus).2.1 0 = 0 := by
  rw [loss_assembly_snd_fst]
  show (∑ i : Fin 2, if i = (0 : Fin 2) then 0
      else pair_loss batch06 i 0 / state06.t_plus i) = 0
  rw [Fin.sum_univ_two, if_pos rfl, if_neg (by decide), pair_loss06_10]
  show (0 : ℝ) + 0 / (1 : ℝ) = 0
  norm_num

lemma assembly06_snd_1 :
    (loss_assembly batch06 state06.t_plus state06.t_minus).2.1 1 = Real.log 2 := by
  rw [loss_assembly_snd_fst]
  show (∑ i : Fin 2, if i = (1 : Fin 2) then 0
      else pair_loss batch06 i 1 / state06.t_plus i) = Real.log 2
  rw [Fin.sum_univ_two, if_neg (by decide), if_pos rfl, pair_loss06_01]
  show Real.log 2 / (1 : ℝ) + 0 = Real.log 2
  rw [div_one, add_zero]

lemma step06_t_plus (k : Fin 2) :
    (step hp06 state06 batch06 [] false).state.t_plus k = 0 := by
  show new_t_plus (loss_assembly batch06 state06.t_plus state06.t_minus).2.1
      hp06.regulation_p k = 0
  unfold new_t_plus
  rw [assembly06_snd_0, div_zero, Real.zero_rpow]
  norm_num [hp06]

/-- C6 counterexample: the claim asserts `new_t_plus[0] = 1` in the scenario,
but the pivot accumulator `t_minus_loss[0]` is `0`, so `new_t_plus[0]` is
the power of a division by zero — `0` in the real-valued embedding (NaN in
floating point) — and not `1`. -/
theorem C6_scenario_counterexample :
    ¬ ((step hp06 state06 batch06 [] false).state.t_plus 0 = 1) := by
  rw [step06_t_plus 0]
  norm_num

/-- C6 (amended): in the end-to-end scenario (`rank_list_size = 2`, one batch
element, labels `[1, 0]`, scores `[0, 0]`, `regulation_p = 2`, stored
propensities all ones) the masks are `mask(0,1) = 1` and `mask(1,0) = 0`, so
only the pair `(0,1)` contributes; `cross_entropy(0,0) = log 2`;
`t_plus_loss = [log 2, 0]` and `t_minus_loss = [0, log 2]`; the pivot
accumulator `t_minus_loss[0]` is `0`, so every entry of `new_t_plus` divides
by zero: in the real-valued embedding `new_t_plus = [0, 0]`, and in
particular `new_t_plus[0]` is not `1` — the zero-denominator edge case. -/
theorem C6_scenario_amended :
    valid_pair_mask ((![1, 0] : Fin 2 → ℝ) 0) (![1, 0] 1) = 1
    ∧ valid_pair_mask ((![1, 0] : Fin 2 → ℝ) 1) (![1, 0] 0) = 0
    ∧ pairwise_cross_entropy_loss 0 0 = Real.log 2
    ∧ (loss_assembly batch06 state06.t_plus state06.t_minus).1 0 = Real.log 2
    ∧ (loss_assembly batch06 state06.t_plus state06.t_minus).1 1 = 0
    ∧ (loss_assembly batch06 state06.t_plus state06.t_minus).2.1 0 = 0
    ∧ (loss_assembly batch06 state06.t_plus state06.t_minus).2.1 1 = Real.log 2
    ∧ (step hp06 state06 batch06 [] false).state.t_plus 0 = 0
    ∧ (step hp06 state06 batch06 [] false).state.t_plus 1 = 0
    ∧ (step hp06 state06 batch06 [] false).state.t_plus 0 ≠ 1 := by
  refine ⟨?_, ?_, ce_zero_zero, assembly06_fst_0, assembly06_fst_1,
    assembly06_snd_0, assembly06_snd_1, step06_t_plus 0, step06_t_plus 1, ?_⟩
  · show valid_pair_mask (1 : ℝ) 0 = 1
    exact mask_10
  · show valid_pair_mask (0 : ℝ) 1 = 0
    exact mask_01
  · rw [step06_t_plus 0]
    norm_num

end PairDebias

end
